import Mathlib

/-!
Verification of the Vaani capture-to-output pipeline specification against
the repository. The pipeline core (state machine, ring buffer, voice
activity gate, orchestrator, output writer) is specified in spec.md and in
the in-tree plan document, but its Rust sources are not part of this tree,
so those components are modelled from the spec. The UI scripts under
src/ui/js and the shared UI script are embedded directly from their
JavaScript sources.
-/

/-- Modelled from the spec: the PipelineState enum of section 3 and 4.3
(the file state.rs is not in the tree). -/
inductive PipelineState
  | Idle
  | Recording
  | Processing
  | Cancelling
deriving DecidableEq

/-- Modelled from the spec: the events of the section 4.3 transition table. -/
inductive PipelineEvent
  | press
  | release
  | maxDuration
  | complete
  | pipelineError
  | shutdown
deriving DecidableEq

/-- Modelled from the spec: the states entered, in order, when one event is
applied in a given state. A cell absent from the section 4.3 table leaves
the state unchanged (no state is entered), and the barge-in row passes
through Cancelling on its way to Recording. -/
def stepStates : PipelineState → PipelineEvent → List PipelineState
  | .Idle, .press => [.Recording]
  | .Recording, .press => [.Recording]
  | .Recording, .release => [.Processing]
  | .Recording, .maxDuration => [.Processing]
  | .Processing, .press => [.Cancelling, .Recording]
  | .Processing, .complete => [.Idle]
  | .Processing, .pipelineError => [.Idle]
  | _, .shutdown => [.Idle]
  | _, _ => []

/-- The resting state after one event: the last state entered, or the
current state when the event is ignored. -/
def applyEvent (s : PipelineState) (e : PipelineEvent) : PipelineState :=
  (stepStates s e).getLastD s

/-- The consecutive state changes observed while the machine walks through
a list of entered states, labelled with the triggering event. -/
def chainPairs (s : PipelineState) (e : PipelineEvent) :
    List PipelineState → List (PipelineState × PipelineEvent × PipelineState)
  | [] => []
  | t :: ts => (s, e, t) :: chainPairs t e ts

/-- All state changes observed while a list of events is applied from a
given state. -/
def observedChanges : PipelineState → List PipelineEvent →
    List (PipelineState × PipelineEvent × PipelineState)
  | _, [] => []
  | s, e :: es => chainPairs s e (stepStates s e) ++ observedChanges (applyEvent s e) es

/-- The rows of the section 4.3 transition table, with the barge-in row
split into its two observable hops Processing to Cancelling and Cancelling
to Recording. -/
def tableRowB : PipelineState → PipelineEvent → PipelineState → Bool
  | .Idle, .press, .Recording => true
  | .Recording, .release, .Processing => true
  | .Recording, .press, .Recording => true
  | .Recording, .maxDuration, .Processing => true
  | .Processing, .press, .Cancelling => true
  | .Cancelling, .press, .Recording => true
  | .Processing, .complete, .Idle => true
  | .Processing, .pipelineError, .Idle => true
  | _, .shutdown, .Idle => true
  | _, _, _ => false

lemma chainPairs_tableRow (s : PipelineState) (e : PipelineEvent) :
    ∀ ch ∈ chainPairs s e (stepStates s e), tableRowB ch.1 ch.2.1 ch.2.2 = true := by
  cases s <;> cases e <;> decide

lemma observedChanges_tableRow (es : List PipelineEvent) :
    ∀ s, ∀ ch ∈ observedChanges s es, tableRowB ch.1 ch.2.1 ch.2.2 = true := by
  induction es with
  | nil => intro s ch h; simp [observedChanges] at h
  | cons e es ih =>
    intro s ch h
    simp only [observedChanges, List.mem_append] at h
    rcases h with h | h
    · exact chainPairs_tableRow s e ch h
    · exact ih (applyEvent s e) ch h

/-- Claim C1: for every finite sequence of events applied from the initial
Idle state, every change of PipelineState observed along the run is one of
the rows of the section 4.3 transition table, and no other transition is
ever observed. -/
theorem C1_transition_table (es : List PipelineEvent)
    (ch : PipelineState × PipelineEvent × PipelineState)
    (h : ch ∈ observedChanges PipelineState.Idle es) :
    tableRowB ch.1 ch.2.1 ch.2.2 = true :=
  observedChanges_tableRow es PipelineState.Idle ch h

theorem C1_transition_table_witness :
    tableRowB PipelineState.Idle PipelineEvent.press PipelineState.Recording = true :=
  C1_transition_table [PipelineEvent.press]
    (PipelineState.Idle, PipelineEvent.press, PipelineState.Recording) (by decide)

/-- Modelled from the spec: the state OutputWriter acts on in section 4.6
(the files output/paste.rs and output/platform.rs are not in the tree):
the system clipboard, the clipboard contents saved by begin, and the text
delivered so far by simulated keystrokes. -/
structure OutState where
  clipboard : String
  saved : Option String
  typed : String
deriving DecidableEq

/-- Modelled from the spec: how one OutputWriter run ends — the stream
completes, the session is cancelled after some number of fragments, or a
prior step faults after some number of fragments. -/
inductive RunOutcome
  | success
  | cancelled (afterFragments : Nat)
  | failed (afterFragments : Nat)
deriving DecidableEq

/-- Modelled from the spec: begin saves the current clipboard contents. -/
def OutputWriter.begin (st : OutState) : OutState :=
  { st with saved := some st.clipboard }

/-- Modelled from the spec: write simulates keystroke input for the
fragment and never touches the clipboard. -/
def OutputWriter.write (frag : String) (st : OutState) : OutState :=
  { st with typed := st.typed ++ frag }

/-- Modelled from the spec: finalize restores the originally saved
clipboard contents and releases the scoped acquisition. -/
def OutputWriter.finalize (st : OutState) : OutState :=
  { st with clipboard := st.saved.getD st.clipboard, saved := none }

/-- Modelled from the spec: the number of fragments delivered before the
run ends on the given outcome. -/
def OutputWriter.deliveredCount (total : Nat) : RunOutcome → Nat
  | .success => total
  | .cancelled k => min k total
  | .failed k => min k total

/-- Modelled from the spec: one full OutputWriter run under the scoped
acquisition pattern — begin, then the fragment writes that happen before
the outcome ends the run, then finalize on every exit path. -/
def OutputWriter.run (st : OutState) (frags : List String) (oc : RunOutcome) : OutState :=
  let st1 := OutputWriter.begin st
  let delivered := frags.take (OutputWriter.deliveredCount frags.length oc)
  OutputWriter.finalize (delivered.foldl (fun a f => OutputWriter.write f a) st1)

lemma writes_preserve_clipboard (l : List String) :
    ∀ st : OutState,
      (l.foldl (fun a f => OutputWriter.write f a) st).clipboard = st.clipboard ∧
      (l.foldl (fun a f => OutputWriter.write f a) st).saved = st.saved := by
  induction l with
  | nil => intro st; exact ⟨rfl, rfl⟩
  | cons f fs ih =>
    intro st
    simpa [OutputWriter.write] using ih { st with typed := st.typed ++ f }

/-- Claim C2: for every run of the output path — success, pipeline error,
or cancellation — the system clipboard contents after OutputWriter returns
equal the contents saved by begin before the run; OutputWriter never
leaves the clipboard modified, even when a prior step failed. -/
theorem C2_clipboard_restored (st : OutState) (frags : List String) (oc : RunOutcome) :
    (OutputWriter.run st frags oc).clipboard = st.clipboard := by
  have h := writes_preserve_clipboard
    (frags.take (OutputWriter.deliveredCount frags.length oc)) (OutputWriter.begin st)
  unfold OutputWriter.run OutputWriter.finalize
  dsimp only
  rw [h.2]
  simp [OutputWriter.begin]

/-- Modelled from the spec: the observable writer actions the orchestrator
emits while sessions run — OutputWriter.finalize for a session, and a new
session entering its Recording state. -/
inductive WriterAct
  | finalizeFor (sid : Nat)
  | recordingFor (sid : Nat)
deriving DecidableEq

/-- Modelled from the spec: the events hitting the orchestrator, including
an ambient copy event that records something else writing the clipboard
while a session runs. -/
inductive OrchEvent
  | press
  | release
  | maxDuration
  | complete
  | pipelineError
  | shutdown
  | copy (s : String)
deriving DecidableEq

/-- Modelled from the spec: the orchestrator state — the pipeline state,
the id of the most recently opened session, the clipboard contents saved
when that session opened, the system clipboard, and the ordered log of
observable writer actions. -/
structure OrchState where
  ps : PipelineState
  cur : Nat
  savedClip : String
  clip : String
  log : List WriterAct
deriving DecidableEq

/-- Modelled from the spec: one orchestrator step. Opening a session saves
the clipboard and logs the session becoming observable in Recording; a
session that ends while Processing — completion, error, shutdown, or a
barge-in press — has its OutputWriter finalized, restoring the saved
clipboard, before anything further happens. -/
def orchStep (st : OrchState) : OrchEvent → OrchState
  | .press =>
    match st.ps with
    | .Idle =>
      { st with ps := .Recording, cur := st.cur + 1, savedClip := st.clip,
                log := st.log ++ [.recordingFor (st.cur + 1)] }
    | .Recording => st
    | .Processing =>
      { st with ps := .Recording, cur := st.cur + 1,
                clip := st.savedClip, savedClip := st.savedClip,
                log := st.log ++ [.finalizeFor st.cur, .recordingFor (st.cur + 1)] }
    | .Cancelling => st
  | .release =>
    match st.ps with
    | .Recording => { st with ps := .Processing }
    | _ => st
  | .maxDuration =>
    match st.ps with
    | .Recording => { st with ps := .Processing }
    | _ => st
  | .complete =>
    match st.ps with
    | .Processing =>
      { st with ps := .Idle, clip := st.savedClip, log := st.log ++ [.finalizeFor st.cur] }
    | _ => st
  | .pipelineError =>
    match st.ps with
    | .Processing =>
      { st with ps := .Idle, clip := st.savedClip, log := st.log ++ [.finalizeFor st.cur] }
    | _ => st
  | .shutdown =>
    match st.ps with
    | .Processing =>
      { st with ps := .Idle, clip := st.savedClip, log := st.log ++ [.finalizeFor st.cur] }
    | _ => { st with ps := .Idle }
  | .copy s => { st with clip := s }

/-- Modelled from the spec: a run of the orchestrator from process start,
with the initial clipboard contents given. -/
def orchRun (c0 : String) (es : List OrchEvent) : OrchState :=
  es.foldl orchStep { ps := .Idle, cur := 0, savedClip := c0, clip := c0, log := [] }

/-- What claim C3 requires of a barge-in press: the in-flight session is
finalized exactly once, the clipboard is back at the value saved when that
session opened, and the finalize action sits immediately before the new
session becoming observable in Recording. -/
def bargeInOk (st : OrchState) : Prop :=
  let st2 := orchStep st OrchEvent.press
  st2.log = st.log ++ [WriterAct.finalizeFor st.cur, WriterAct.recordingFor (st.cur + 1)] ∧
  st2.log.count (WriterAct.finalizeFor st.cur) = 1 ∧
  st2.log.count (WriterAct.recordingFor (st.cur + 1)) = 1 ∧
  st2.clip = st.savedClip ∧
  ∃ i, st2.log[i]? = some (WriterAct.finalizeFor st.cur) ∧
       st2.log[i + 1]? = some (WriterAct.recordingFor (st.cur + 1))

/-- The run invariant: no writer action for a session that has not been
opened yet, no finalize for the session that is still open, and the
machine never rests in Cancelling. -/
def orchInv (st : OrchState) : Prop :=
  (∀ k, st.cur < k →
    WriterAct.finalizeFor k ∉ st.log ∧ WriterAct.recordingFor k ∉ st.log) ∧
  (st.ps ≠ PipelineState.Idle → WriterAct.finalizeFor st.cur ∉ st.log) ∧
  st.ps ≠ PipelineState.Cancelling

lemma orchStep_inv (st : OrchState) (e : OrchEvent) (h : orchInv st) :
    orchInv (orchStep st e) := by
  obtain ⟨ps, cur, sc, c, log⟩ := st
  obtain ⟨h1, h2, h3⟩ := h
  cases e <;> cases ps <;>
    simp_all [orchStep, orchInv, List.mem_append] <;>
    try omega
  · intro k hk
    have hh := h1 k (by omega)
    exact ⟨hh.1, hh.2, by omega⟩
  · intro k hk
    have hh := h1 k (by omega)
    exact ⟨⟨hh.1, by omega⟩, hh.2, by omega⟩

lemma foldl_orchStep_inv (es : List OrchEvent) :
    ∀ st, orchInv st → orchInv (es.foldl orchStep st) := by
  induction es with
  | nil => intro st h; exact h
  | cons e es ih => intro st h; exact ih _ (orchStep_inv st e h)

lemma orchRun_inv (c0 : String) (es : List OrchEvent) : orchInv (orchRun c0 es) := by
  refine foldl_orchStep_inv es _ ?_
  refine ⟨?_, ?_, ?_⟩ <;> simp [orchInv]

lemma getElem?_append_length {α : Type} (l m : List α) (n : Nat) :
    (l ++ m)[l.length + n]? = m[n]? := by
  induction l with
  | nil => simp
  | cons a t ih =>
    simp only [List.cons_append, List.length_cons]
    have hn : t.length + 1 + n = (t.length + n) + 1 := by omega
    rw [hn]
    simpa using ih

/-- Claim C3: whenever a run leaves the orchestrator Processing on session
s1 and a new hotkey press arrives, OutputWriter.finalize for s1 is invoked
exactly once, the clipboard is restored to the value saved when s1 opened,
and the finalize precedes the new session s2 becoming observable in its
Recording state. -/
theorem C3_barge_in_finalize (c0 : String) (es : List OrchEvent)
    (h : (orchRun c0 es).ps = PipelineState.Processing) :
    bargeInOk (orchRun c0 es) := by
  have hinv := orchRun_inv c0 es
  generalize hG : orchRun c0 es = st at h hinv ⊢
  obtain ⟨ps, cur, sc, c, lg⟩ := st
  obtain ⟨h1, h2, h3⟩ := hinv
  dsimp only at h h1 h2 h3
  subst h
  have hfin : WriterAct.finalizeFor cur ∉ lg := h2 (by simp)
  have hrec : WriterAct.recordingFor (cur + 1) ∉ lg := (h1 (cur + 1) (by omega)).2
  unfold bargeInOk orchStep
  dsimp only
  refine ⟨rfl, ?_, ?_, rfl, ?_⟩
  · simp [List.count_append, List.count_cons, List.count_eq_zero.mpr hfin]
  · simp [List.count_append, List.count_cons, List.count_eq_zero.mpr hrec]
  · refine ⟨lg.length, ?_, ?_⟩
    · simpa using getElem?_append_length lg
        [WriterAct.finalizeFor cur, WriterAct.recordingFor (cur + 1)] 0
    · simpa using getElem?_append_length lg
        [WriterAct.finalizeFor cur, WriterAct.recordingFor (cur + 1)] 1

theorem C3_barge_in_finalize_witness :
    bargeInOk (orchRun "before" [OrchEvent.press, OrchEvent.release]) :=
  C3_barge_in_finalize "before" [OrchEvent.press, OrchEvent.release] (by decide)

/-- Modelled from the spec: an AudioFrame — a fixed-size slice of mono
samples with a monotonic sequence number (capture.rs is not in the tree). -/
structure AudioFrame where
  seq : Nat
  samples : List Int
deriving DecidableEq

/-- Modelled from the spec: the RingBuffer of section 4.1 — fixed capacity,
queued frames, and the diagnostic overflow counter (ring_buffer.rs is not
in the tree). -/
structure RingBuffer where
  capacity : Nat
  frames : List AudioFrame
  overflowCount : Nat
deriving DecidableEq

/-- Modelled from the spec: push enqueues the frame and returns true when
room is available; when the buffer is full it drops the newest frame,
bumps the overflow counter and returns false. -/
def RingBuffer.push (rb : RingBuffer) (f : AudioFrame) : RingBuffer × Bool :=
  if rb.frames.length < rb.capacity then
    ({ rb with frames := rb.frames ++ [f] }, true)
  else
    ({ rb with overflowCount := rb.overflowCount + 1 }, false)

/-- Modelled from the spec: drain pops all currently available frames for
the non-real-time consumer. -/
def RingBuffer.drain (rb : RingBuffer) : List AudioFrame × RingBuffer :=
  (rb.frames, { rb with frames := [] })

/-- A whole burst of producer pushes, with no consumer drain in between. -/
def RingBuffer.pushAll (rb : RingBuffer) : List AudioFrame → RingBuffer
  | [] => rb
  | f :: fs => ((rb.push f).1).pushAll fs

/-- How many frames of a burst get dropped. -/
def RingBuffer.droppedCount (rb : RingBuffer) : List AudioFrame → Nat
  | [] => 0
  | f :: fs => (if (rb.push f).2 then 0 else 1) + ((rb.push f).1).droppedCount fs

lemma pushAll_overflow (fs : List AudioFrame) :
    ∀ rb : RingBuffer,
      (rb.pushAll fs).overflowCount = rb.overflowCount + rb.droppedCount fs := by
  induction fs with
  | nil => intro rb; simp [RingBuffer.pushAll, RingBuffer.droppedCount]
  | cons f fs ih =>
    intro rb
    simp only [RingBuffer.pushAll, RingBuffer.droppedCount]
    rw [ih]
    unfold RingBuffer.push
    split <;> (simp; try omega)

/-- Claim C5: push is a total function of the frame and the buffer state;
when the buffer is full it returns false, leaves the queue unchanged and
drops the frame; when not full it enqueues the frame and returns true; and
across any burst of pushes the overflow counter grows by exactly the
number of dropped frames, hence monotonically. -/
theorem C5_ring_buffer_push (rb : RingBuffer) (f : AudioFrame) (fs : List AudioFrame) :
    (rb.capacity ≤ rb.frames.length →
      rb.push f = ({ rb with overflowCount := rb.overflowCount + 1 }, false)) ∧
    (rb.frames.length < rb.capacity →
      rb.push f = ({ rb with frames := rb.frames ++ [f] }, true)) ∧
    (rb.pushAll fs).overflowCount = rb.overflowCount + rb.droppedCount fs := by
  refine ⟨?_, ?_, pushAll_overflow fs rb⟩
  · intro h
    unfold RingBuffer.push
    rw [if_neg (by omega)]
  · intro h
    unfold RingBuffer.push
    rw [if_pos h]

theorem C5_ring_buffer_push_witness :
    (RingBuffer.push ⟨1, [⟨0, [0]⟩], 0⟩ ⟨1, [1]⟩ =
      ({ capacity := 1, frames := [⟨0, [0]⟩], overflowCount := 1 }, false)) ∧
    (RingBuffer.push ⟨2, [⟨0, [0]⟩], 0⟩ ⟨1, [1]⟩ =
      ({ capacity := 2, frames := [⟨0, [0]⟩, ⟨1, [1]⟩], overflowCount := 0 }, true)) :=
  ⟨(C5_ring_buffer_push ⟨1, [⟨0, [0]⟩], 0⟩ ⟨1, [1]⟩ []).1 (by decide),
   (C5_ring_buffer_push ⟨2, [⟨0, [0]⟩], 0⟩ ⟨1, [1]⟩ []).2.1 (by decide)⟩

/-- Modelled from the spec: the energy of one classification window of the
VoiceActivityGate (vad.rs and processing.rs are not in the tree). -/
def frameEnergy (w : List Int) : Int :=
  (w.map (fun x => x * x)).sum

/-- Modelled from the spec: a window classifies as speech when its energy
reaches the configured sensitivity threshold. -/
def isSpeechWindow (threshold : Int) (w : List Int) : Bool :=
  threshold ≤ frameEnergy w

/-- Modelled from the spec: drop leading silence windows, keeping up to
pad windows of lead padding before the first speech window. -/
def dropLeadingSilence (threshold : Int) (pad : Nat) (ws : List (List Int)) :
    List (List Int) :=
  ws.drop (ws.findIdx (isSpeechWindow threshold) - pad)

/-- Modelled from the spec: trim leading and trailing silence around the
speech-bearing windows, keeping the lead and trail padding. -/
def trimUtterance (threshold : Int) (pad : Nat) (ws : List (List Int)) :
    List (List Int) :=
  (dropLeadingSilence threshold pad (dropLeadingSilence threshold pad ws.reverse).reverse)

/-- Modelled from the spec: the VoiceActivityGate result — an explicit
empty result, never an empty buffer passed downstream. -/
inductive VadResult
  | empty
  | utterance (samples : List Int)
deriving DecidableEq

/-- Modelled from the spec: the gate of section 4.4 — when every window of
the session classifies as silence it returns the explicit empty result,
otherwise the trimmed utterance buffer. -/
def VoiceActivityGate.gate (threshold : Int) (pad : Nat) (ws : List (List Int)) :
    VadResult :=
  if ws.all (fun w => !(isSpeechWindow threshold w)) then VadResult.empty
  else VadResult.utterance (trimUtterance threshold pad ws).flatten

/-- Modelled from the spec: a call to a remote collaborator made by the
orchestrator. -/
inductive CollabCall
  | transcribeCall (samples : List Int)
  | enhanceCall (text : String)
deriving DecidableEq

/-- Modelled from the spec: what one orchestrator session run produces —
the collaborator calls made in order, the terminal pipeline state, and the
delivered output if any. -/
structure OrchOutcome where
  calls : List CollabCall
  finalState : PipelineState
  output : Option String
deriving DecidableEq

/-- Modelled from the spec: the section 4.5 run sequence over abstract
transcription and enhancement collaborators. An empty utterance
short-circuits straight to Idle; otherwise transcription is called, and on
its success enhancement is called and its fragments delivered in order. -/
def PipelineOrchestrator.run (stt : List Int → Option String)
    (enh : String → List String) : VadResult → OrchOutcome
  | VadResult.empty => { calls := [], finalState := PipelineState.Idle, output := none }
  | VadResult.utterance samples =>
    match stt samples with
    | none =>
      { calls := [CollabCall.transcribeCall samples],
        finalState := PipelineState.Idle, output := none }
    | some text =>
      { calls := [CollabCall.transcribeCall samples, CollabCall.enhanceCall text],
        finalState := PipelineState.Idle,
        output := some (String.join (enh text)) }

/-- Claim C6: when the entire captured audio classifies as silence, the
VoiceActivityGate returns the explicit empty result, and the orchestrator
then goes directly to Idle with no output and no call to the transcription
or enhancement collaborator. -/
theorem C6_silence_short_circuit (threshold : Int) (pad : Nat)
    (ws : List (List Int)) (stt : List Int → Option String)
    (enh : String → List String)
    (h : ∀ w ∈ ws, isSpeechWindow threshold w = false) :
    VoiceActivityGate.gate threshold pad ws = VadResult.empty ∧
    PipelineOrchestrator.run stt enh (VoiceActivityGate.gate threshold pad ws) =
      { calls := [], finalState := PipelineState.Idle, output := none } := by
  have hall : ws.all (fun w => !(isSpeechWindow threshold w)) = true := by
    rw [List.all_eq_true]
    intro w hw
    simp [h w hw]
  have hg : VoiceActivityGate.gate threshold pad ws = VadResult.empty := by
    unfold VoiceActivityGate.gate
    rw [if_pos hall]
  refine ⟨hg, ?_⟩
  rw [hg]
  rfl

theorem C6_silence_short_circuit_witness :
    VoiceActivityGate.gate 1 2 [[0, 0], [0]] = VadResult.empty ∧
    PipelineOrchestrator.run (fun _ => none) (fun _ => [])
        (VoiceActivityGate.gate 1 2 [[0, 0], [0]]) =
      { calls := [], finalState := PipelineState.Idle, output := none } :=
  C6_silence_short_circuit 1 2 [[0, 0], [0]] (fun _ => none) (fun _ => [])
    (by decide)

/-- Modelled from the spec: the backend state the section 6 mic-test rules
act on — the pipeline state plus whether a mic test is running (the
commands start_mic_test and stop_mic_test live in commands.rs, which is
not in the tree; the UI scripts in src issue start_mic_test without any
guard of their own). -/
structure MicSysState where
  ps : PipelineState
  micTestActive : Bool
deriving DecidableEq

/-- Modelled from the spec: every event reaching the backend that can
touch the pipeline state or the mic-test flag. -/
inductive MicEvent
  | press
  | release
  | maxDuration
  | complete
  | pipelineError
  | shutdown
  | startMicTest
  | stopMicTest
deriving DecidableEq

/-- Modelled from the spec: one backend step. start_mic_test refuses to
start while Recording or Processing; a press is refused while a mic test
is active; everything else follows the section 4.3 table. -/
def micStep (st : MicSysState) : MicEvent → MicSysState
  | .press =>
    if st.micTestActive then st
    else
      match st.ps with
      | .Idle => { st with ps := .Recording }
      | .Recording => st
      | .Processing => { st with ps := .Recording }
      | .Cancelling => st
  | .release =>
    match st.ps with
    | .Recording => { st with ps := .Processing }
    | _ => st
  | .maxDuration =>
    match st.ps with
    | .Recording => { st with ps := .Processing }
    | _ => st
  | .complete =>
    match st.ps with
    | .Processing => { st with ps := .Idle }
    | _ => st
  | .pipelineError =>
    match st.ps with
    | .Processing => { st with ps := .Idle }
    | _ => st
  | .shutdown => { ps := .Idle, micTestActive := false }
  | .startMicTest =>
    if st.ps = .Recording ∨ st.ps = .Processing then st
    else { st with micTestActive := true }
  | .stopMicTest => { st with micTestActive := false }

/-- A backend run from process start: Idle, no mic test. -/
def micRun (es : List MicEvent) : MicSysState :=
  es.foldl micStep { ps := PipelineState.Idle, micTestActive := false }

/-- The mutual-exclusion invariant: a running mic test never coexists with
a live capture session. -/
def micInv (st : MicSysState) : Prop :=
  st.micTestActive = true →
    ¬(st.ps = PipelineState.Recording ∨ st.ps = PipelineState.Processing)

lemma micStep_inv (st : MicSysState) (e : MicEvent) (h : micInv st) :
    micInv (micStep st e) := by
  obtain ⟨ps, mt⟩ := st
  cases e <;> cases ps <;> cases mt <;>
    simp_all [micStep, micInv]

lemma micRun_inv (es : List MicEvent) : micInv (micRun es) := by
  have : ∀ st, micInv st → micInv (es.foldl micStep st) := by
    induction es with
    | nil => intro st h; exact h
    | cons e es ih => intro st h; exact ih _ (micStep_inv st e h)
  exact this _ (by simp [micInv])

/-- Claim C7: in every reachable backend state a mic test and a live
capture never run concurrently; starting a mic test is refused whenever
the pipeline is Recording or Processing; and while a mic test is active a
hotkey press cannot move the pipeline state, so a recording session cannot
begin — even though the UI issues start_mic_test unconditionally. -/
theorem C7_mic_test_exclusive (es : List MicEvent) :
    (¬((micRun es).micTestActive = true ∧
       ((micRun es).ps = PipelineState.Recording ∨
        (micRun es).ps = PipelineState.Processing))) ∧
    ((micRun es).ps = PipelineState.Recording ∨
     (micRun es).ps = PipelineState.Processing →
      micStep (micRun es) MicEvent.startMicTest = micRun es) ∧
    ((micRun es).micTestActive = true →
      (micStep (micRun es) MicEvent.press).ps = (micRun es).ps) := by
  refine ⟨?_, ?_, ?_⟩
  · intro hc
    exact micRun_inv es hc.1 hc.2
  · intro hps
    unfold micStep
    rw [if_pos hps]
  · intro hmt
    unfold micStep
    rw [if_pos hmt]

theorem C7_mic_test_exclusive_witness :
    (micStep (micRun [MicEvent.press]) MicEvent.startMicTest =
      micRun [MicEvent.press]) ∧
    ((micStep (micRun [MicEvent.startMicTest]) MicEvent.press).ps =
      (micRun [MicEvent.startMicTest]).ps) :=
  ⟨(C7_mic_test_exclusive [MicEvent.press]).2.1 (by decide),
   (C7_mic_test_exclusive [MicEvent.startMicTest]).2.2 (by decide)⟩

/-- Embedded from src/ui/js/settings.js, the initMicrophone polling loop:
each tick sets the fill width to Math.min(100, Math.max(0, level)) percent
of the level value returned by get_mic_level. -/
def settingsLevelPct (level : ℚ) : ℚ :=
  min 100 (max 0 level)

/-- Embedded from the shared UI script (src/unnamed/part_000),
updateLevelMeter: the fill width is Math.min(level * 100, 100) percent. -/
def updateLevelMeter (level : ℚ) : ℚ :=
  min (level * 100) 100

/-- Embedded from src/ui/js/onboarding.js, the startMicTest polling loop:
the fill width is Math.min(Math.max(level * 100, 0), 100) percent. -/
def onboardingLevelPct (level : ℚ) : ℚ :=
  min (max (level * 100) 0) 100

/-- Claim C4 fails on the settings panel: at mic level 0.5 the shared UI
script and the onboarding wizard set the meter to 50 percent as the claim
says, but settings.js sets it to 0.5 percent because it uses the raw
0.0 to 1.0 level as a percentage without scaling by 100. -/
theorem C4_settings_meter_divergence :
    updateLevelMeter (1 / 2) = 50 ∧
    onboardingLevelPct (1 / 2) = 50 ∧
    settingsLevelPct (1 / 2) = 1 / 2 ∧
    settingsLevelPct (1 / 2) ≠ (1 / 2) * 100 := by
  refine ⟨?_, ?_, ?_, ?_⟩ <;>
    norm_num [updateLevelMeter, onboardingLevelPct, settingsLevelPct,
      min_def, max_def]

/-- Embedded from the UI scripts: the fields of a DOM keyboard event that
the two hotkey capture handlers read. -/
structure KeyEvent where
  metaKey : Bool
  ctrlKey : Bool
  altKey : Bool
  shiftKey : Bool
  key : String
deriving DecidableEq

/-- Embedded from the UI scripts: the JavaScript toUpperCase call on a
key value, modelled characterwise. -/
def jsToUpper (s : String) : String :=
  String.mk (s.data.map Char.toUpper)

/-- Embedded from both handlers: the bare-modifier key names both filter
out of the combination. -/
def isBareModifier (k : String) : Bool :=
  k == "Meta" || k == "Control" || k == "Alt" || k == "Shift"

/-- Embedded from src/ui/js/onboarding.js buildKeyName: modifier names
Cmd, Ctrl, Option, Shift; a lone modifier is accepted as the hotkey; a
space becomes Space; single characters are uppercased; parts are joined
with a spaced plus sign. Returns none exactly when handleHotkeyCapture
returns without calling set_hotkey. -/
def buildKeyName (e : KeyEvent) : Option String :=
  let parts : List String :=
    (if e.metaKey then ["Cmd"] else []) ++ (if e.ctrlKey then ["Ctrl"] else []) ++
    (if e.altKey then ["Option"] else []) ++ (if e.shiftKey then ["Shift"] else [])
  if isBareModifier e.key then
    if parts.length = 1 then some (parts.getD 0 "")
    else if 1 < parts.length then some (String.intercalate " + " parts)
    else none
  else
    let key1 : String :=
      if e.key = " " then "Space"
      else if e.key.length = 1 then jsToUpper e.key
      else e.key
    some (String.intercalate " + " (parts ++ [key1]))

/-- Embedded from src/ui/js/settings.js initHotkey onKey: modifier names
Cmd, Ctrl, Alt, Shift plus the uppercased non-modifier key. -/
def settingsOnKeyParts (e : KeyEvent) : List String :=
  (if e.metaKey then ["Cmd"] else []) ++ (if e.ctrlKey then ["Ctrl"] else []) ++
  (if e.altKey then ["Alt"] else []) ++ (if e.shiftKey then ["Shift"] else []) ++
  (if isBareModifier e.key then []
   else [if e.key.length = 1 then jsToUpper e.key else e.key])

/-- Embedded from src/ui/js/settings.js initHotkey onKey: set_hotkey is
called only when a non-modifier key arrives together with at least one of
Cmd, Ctrl or Alt, with the parts joined by a bare plus sign. -/
def settingsOnKey (e : KeyEvent) : Option String :=
  if (e.metaKey || e.ctrlKey || e.altKey) && !(isBareModifier e.key) then
    some (String.intercalate "+" (settingsOnKeyParts e))
  else none

/-- Claim C8 counterexample: on a bare letter key the onboarding handler
calls set_hotkey with the string A while the settings handler does not
call at all, and on Option plus the letter a both handlers fire but pass
different strings. -/
theorem C8_capture_mismatch :
    buildKeyName ⟨false, false, false, false, "a"⟩ = some "A" ∧
    settingsOnKey ⟨false, false, false, false, "a"⟩ = none ∧
    buildKeyName ⟨false, false, true, false, "a"⟩ = some "Option + A" ∧
    settingsOnKey ⟨false, false, true, false, "a"⟩ = some "Alt+A" := by
  refine ⟨?_, ?_, ?_, ?_⟩ <;> decide

/-- Claim C8 as amended: whenever the settings handler would invoke
set_hotkey, the onboarding handler would invoke it too; the converse fails
and the passed strings can differ. -/
theorem C8_settings_implies_onboarding (e : KeyEvent)
    (h : settingsOnKey e ≠ none) : buildKeyName e ≠ none := by
  unfold settingsOnKey at h
  unfold buildKeyName
  by_cases hb : isBareModifier e.key = true
  · simp [hb] at h
  · simp only [Bool.not_eq_true] at hb
    simp [hb]

theorem C8_settings_implies_onboarding_witness :
    buildKeyName ⟨false, false, true, false, "a"⟩ ≠ none :=
  C8_settings_implies_onboarding ⟨false, false, true, false, "a"⟩ (by decide)

/-- Embedded from src/ui/js/onboarding.js: the clicks that can move the
wizard — Get Started, Back, Skip, Next, and the Sounds Good button of the
microphone step. -/
inductive NavEvent
  | getStarted
  | back
  | skip
  | next
  | soundsGood
deriving DecidableEq

/-- Embedded from src/ui/js/onboarding.js setupNavigation, onStepNext and
setupMicTest: the value of currentStep after each click, with totalSteps
fixed at 6. Get Started shows step 2, Back decrements only above step 1,
Skip and Next advance only below step 6, Sounds Good shows step 4. -/
def navStep (s : Nat) : NavEvent → Nat
  | .getStarted => 2
  | .back => if 1 < s then s - 1 else s
  | .skip => if s < 6 then s + 1 else s
  | .next => if s < 6 then s + 1 else s
  | .soundsGood => 4

/-- Embedded from the same handlers: the arguments each click passes to
showStep (empty when the guard fails and showStep is not called). -/
def showStepCalls (s : Nat) : NavEvent → List Nat
  | .getStarted => [2]
  | .back => if 1 < s then [s - 1] else []
  | .skip => if s < 6 then [s + 1] else []
  | .next => if s < 6 then [s + 1] else []
  | .soundsGood => [4]

/-- Embedded from src/ui/js/onboarding.js: the wizard opens on showStep
with index 1. -/
def navRun (es : List NavEvent) : Nat :=
  es.foldl navStep 1

lemma navStep_bounds (s : Nat) (e : NavEvent) (h1 : 1 ≤ s) (h6 : s ≤ 6) :
    1 ≤ navStep s e ∧ navStep s e ≤ 6 := by
  cases e <;> simp only [navStep] <;> (try split) <;> omega

lemma navRun_bounds (es : List NavEvent) : 1 ≤ navRun es ∧ navRun es ≤ 6 := by
  have main : ∀ s, 1 ≤ s → s ≤ 6 →
      1 ≤ es.foldl navStep s ∧ es.foldl navStep s ≤ 6 := by
    induction es with
    | nil => intro s h1 h6; exact ⟨h1, h6⟩
    | cons e es ih =>
      intro s h1 h6
      have hb := navStep_bounds s e h1 h6
      exact ih _ hb.1 hb.2
  exact main 1 (by omega) (by omega)

lemma showStepCalls_bounds (s : Nat) (e : NavEvent) (h1 : 1 ≤ s) (h6 : s ≤ 6) :
    ∀ n ∈ showStepCalls s e, 1 ≤ n ∧ n ≤ 6 := by
  intro n hn
  cases e <;> simp only [showStepCalls] at hn <;>
    (try split at hn) <;> simp at hn <;> omega

/-- Claim C9: in the onboarding wizard, for every sequence of clicks on
Get Started, Back, Skip, Next and Sounds Good, the current step stays
within 1 to 6; Back decrements only above step 1, Skip and Next advance
only below step 6, and showStep is never invoked with an index outside
1 to 6. -/
theorem C9_step_bounds (es : List NavEvent) :
    (1 ≤ navRun es ∧ navRun es ≤ 6) ∧
    (∀ e n, n ∈ showStepCalls (navRun es) e → 1 ≤ n ∧ n ≤ 6) ∧
    (navStep (navRun es) NavEvent.back ≠ navRun es →
      1 < navRun es ∧ navStep (navRun es) NavEvent.back = navRun es - 1) ∧
    (navStep (navRun es) NavEvent.skip ≠ navRun es →
      navRun es < 6 ∧ navStep (navRun es) NavEvent.skip = navRun es + 1) ∧
    (navStep (navRun es) NavEvent.next ≠ navRun es →
      navRun es < 6 ∧ navStep (navRun es) NavEvent.next = navRun es + 1) := by
  obtain ⟨h1, h6⟩ := navRun_bounds es
  refine ⟨⟨h1, h6⟩, ?_, ?_, ?_, ?_⟩
  · intro e n hn
    exact showStepCalls_bounds (navRun es) e h1 h6 n hn
  · simp only [navStep]
    split <;> omega
  · simp only [navStep]
    split <;> omega
  · simp only [navStep]
    split <;> omega

theorem C9_step_bounds_witness :
    (1 ≤ navRun [NavEvent.getStarted] ∧ navRun [NavEvent.getStarted] ≤ 6) ∧
    (1 ≤ 1 ∧ 1 ≤ 6) ∧
    (1 < navRun [NavEvent.getStarted] ∧
      navStep (navRun [NavEvent.getStarted]) NavEvent.back =
        navRun [NavEvent.getStarted] - 1) ∧
    (navRun [NavEvent.getStarted] < 6 ∧
      navStep (navRun [NavEvent.getStarted]) NavEvent.skip =
        navRun [NavEvent.getStarted] + 1) ∧
    (navRun [NavEvent.getStarted] < 6 ∧
      navStep (navRun [NavEvent.getStarted]) NavEvent.next =
        navRun [NavEvent.getStarted] + 1) :=
  ⟨(C9_step_bounds [NavEvent.getStarted]).1,
   (C9_step_bounds [NavEvent.getStarted]).2.1 NavEvent.back 1 (by decide),
   (C9_step_bounds [NavEvent.getStarted]).2.2.1 (by decide),
   (C9_step_bounds [NavEvent.getStarted]).2.2.2.1 (by decide),
   (C9_step_bounds [NavEvent.getStarted]).2.2.2.2 (by decide)⟩

/-- Embedded from the UI scripts: the whitespace characters stripped by
the JavaScript trim call on a key input value. -/
def jsWhitespace (c : Char) : Bool :=
  c == ' ' || c == '\t' || c == '\n' || c == '\r' || c == '\x0b' || c == '\x0c'

/-- Embedded from the UI scripts: the JavaScript trim call — whitespace is
stripped from both ends of the value, modelled on the character list. -/
def jsTrim (l : List Char) : List Char :=
  ((l.dropWhile jsWhitespace).reverse.dropWhile jsWhitespace).reverse

lemma dropWhile_head_not (p : Char → Bool) :
    ∀ (l : List Char) (a : Char) (r : List Char),
      l.dropWhile p = a :: r → p a = false := by
  intro l
  induction l with
  | nil => intro a r h; simp [List.dropWhile] at h
  | cons x xs ih =>
    intro a r h
    rw [List.dropWhile_cons] at h
    by_cases hx : p x = true
    · rw [if_pos hx] at h
      exact ih a r h
    · rw [if_neg hx] at h
      obtain ⟨h1, h2⟩ := List.cons.inj h
      subst h1
      simpa using hx

lemma dropWhile_sub (p : Char → Bool) :
    ∀ l : List Char, ∃ u, l = u ++ l.dropWhile p := by
  intro l
  induction l with
  | nil => exact ⟨[], rfl⟩
  | cons x xs ih =>
    rw [List.dropWhile_cons]
    by_cases hx : p x = true
    · rw [if_pos hx]
      obtain ⟨u, hu⟩ := ih
      exact ⟨x :: u, by rw [List.cons_append, ← hu]⟩
    · rw [if_neg hx]
      exact ⟨[], rfl⟩

lemma jsTrim_head (l : List Char) (a : Char) (r : List Char)
    (h : jsTrim l = a :: r) : jsWhitespace a = false ∧ a ∈ l := by
  obtain ⟨u, hu⟩ := dropWhile_sub jsWhitespace (l.dropWhile jsWhitespace).reverse
  unfold jsTrim at h
  have hm : l.dropWhile jsWhitespace = (a :: r) ++ u.reverse := by
    have h2 := congrArg List.reverse hu
    rw [List.reverse_reverse, List.reverse_append, h] at h2
    exact h2
  constructor
  · exact dropWhile_head_not jsWhitespace l a (r ++ u.reverse) (by simpa using hm)
  · obtain ⟨u0, hu0⟩ := dropWhile_sub jsWhitespace l
    rw [hu0, hm]
    simp

/-- Embedded from the shared UI script (src/unnamed/part_000) saveApiKey:
the guard trims the field value and returns early when the trimmed value
is empty, but the untrimmed field value is what is passed to set_api_key.
Returns the key passed to set_api_key, if any. -/
def saveApiKey (value : List Char) : Option (List Char) :=
  if jsTrim value = [] then none else some value

/-- Embedded from src/ui/js/settings.js initApiKeys save handlers: the
field value is trimmed, an empty trimmed key returns early, and the
trimmed key is passed to set_api_key. -/
def initApiKeysSave (value : List Char) : Option (List Char) :=
  let key := jsTrim value
  if key = [] then none else some key

/-- Embedded from src/ui/js/onboarding.js saveApiKeys for one provider:
the trimmed key is passed to set_api_key only when non-empty. -/
def saveApiKeysOnboarding (value : List Char) : Option (List Char) :=
  let k := jsTrim value
  if k = [] then none else some k

/-- Claim C10: no UI save path ever invokes set_api_key with an empty or
whitespace-only key — whenever any of the three handlers passes a key to
the backend, that key contains a non-whitespace character. -/
theorem C10_no_empty_key (v k : List Char) :
    (saveApiKey v = some k → ∃ c ∈ k, jsWhitespace c = false) ∧
    (initApiKeysSave v = some k → ∃ c ∈ k, jsWhitespace c = false) ∧
    (saveApiKeysOnboarding v = some k → ∃ c ∈ k, jsWhitespace c = false) := by
  have trimmedCase : ∀ h : jsTrim v ≠ [],
      ∃ c ∈ jsTrim v, jsWhitespace c = false := by
    intro hne
    cases hc : jsTrim v with
    | nil => exact absurd hc hne
    | cons a r =>
      obtain ⟨hws, _⟩ := jsTrim_head v a r hc
      exact ⟨a, List.mem_cons_self a r, hws⟩
  refine ⟨?_, ?_, ?_⟩
  · intro h
    unfold saveApiKey at h
    by_cases hne : jsTrim v = []
    · rw [if_pos hne] at h
      exact absurd h (by simp)
    · rw [if_neg hne] at h
      have hv : v = k := by simpa using h
      cases hc : jsTrim v with
      | nil => exact absurd hc hne
      | cons a r =>
        obtain ⟨hws, hmem⟩ := jsTrim_head v a r hc
        exact ⟨a, hv ▸ hmem, hws⟩
  · intro h
    unfold initApiKeysSave at h
    by_cases hne : jsTrim v = []
    · rw [if_pos hne] at h
      exact absurd h (by simp)
    · rw [if_neg hne] at h
      have hk : jsTrim v = k := by simpa using h
      exact hk ▸ trimmedCase hne
  · intro h
    unfold saveApiKeysOnboarding at h
    by_cases hne : jsTrim v = []
    · rw [if_pos hne] at h
      exact absurd h (by simp)
    · rw [if_neg hne] at h
      have hk : jsTrim v = k := by simpa using h
      exact hk ▸ trimmedCase hne

theorem C10_no_empty_key_witness :
    (∃ c ∈ ([' ', 'a'] : List Char), jsWhitespace c = false) ∧
    (∃ c ∈ (['a'] : List Char), jsWhitespace c = false) ∧
    (∃ c ∈ (['a'] : List Char), jsWhitespace c = false) :=
  ⟨(C10_no_empty_key [' ', 'a'] [' ', 'a']).1 (by decide),
   (C10_no_empty_key [' ', 'a'] ['a']).2.1 (by decide),
   (C10_no_empty_key [' ', 'a'] ['a']).2.2 (by decide)⟩
